import Mathlib

/-!
Shallow embedding of the job-backend scraping service (src/server.js).

The effectful boundary (browser automation, network) is modelled by an
environment record carrying the outcome of each external call; the control
flow of the handler, the enrichment helpers and the event stream are
translated directly from the source.
-/

namespace JobBackend

/-- A job record as assembled by the extractors and mutated in place by the
enrichment loop (server.js lines 62-80, 128-149, 272-282).  The enrichment
fields use `Option (Option String)`: `none` means the field is absent from
the record, `some v` means the field is present with value `v`, where
`v = none` corresponds to the JS `null`. -/
structure Job where
  id : String := ""
  title : String := ""
  company : String := ""
  location : String := ""
  jobUrl : String := ""
  postedDate : String := ""
  source : String := ""
  status : String := ""
  experience : Option String := none
  careerPageUrl : Option (Option String) := none
  hrEmail : Option (Option String) := none
deriving DecidableEq, Repr

/-- JS truthiness of a possibly-absent string value: `undefined` and `null`
map to `none` and are falsy; a present string is truthy iff it is nonempty
(mirrors `if (!keywords)` on line 236 and `if (!careerPageUrl)` on
line 197). -/
def jsTruthyStr : Option String → Bool
  | none => false
  | some s => !(s == "")

/-- One frame of the event stream: the handler only ever writes
`{type:"progress",message,progress}` frames (lines 250, 255, 268, 284) and a
single `{type:"complete",jobs}` frame (line 287). -/
inductive Event where
  | progress (message : String) (percent : Nat)
  | complete (jobs : List Job)
deriving DecidableEq, Repr

/-- The handler response: either the synchronous 400 JSON error body
(line 237) or the streamed list of frames, in write order. -/
inductive Response where
  | badRequest (error : String)
  | stream (events : List Event)
deriving DecidableEq, Repr

/-- Outcomes of the external effectful calls made during one request run:
`extract i` is the result of the scrape call made at index `i` of the
source loop (`Except.error` models the extractor throwing, line 262);
`cp i` and `hr i` are the results of `findCareerPage` and `findHREmail`
at enrichment iteration `i` (lines 275 and 277). -/
structure Env where
  extract : Nat → Except Unit (List Job)
  cp : Nat → Except Unit (Option String)
  hr : Nat → Except Unit (Option String)

/-- The request body fields read on line 234.  `maxResults = none` means the
field is absent, in which case the JS default parameter supplies 20. -/
structure Request where
  keywords : Option String := none
  location : Option String := none
  sources : List String := []
  maxResults : Option Nat := none

/-- Line 242: `Math.ceil(maxResults / sources.length)`.  For `n > 0` the JS
ceiling of the division of naturals equals `(m + n - 1) / n`.  For `n = 0`
JS yields `Infinity`; that value is only ever used inside the source loop,
which is then empty, so the `n = 0` value of this function is never
consulted by the model. -/
def resultsPerSource (m n : Nat) : Nat := (m + n - 1) / n

/-- The progress frame written for one source before its extraction call
(lines 250-257): LinkedIn writes percent 20, Naukri percent 40, an unknown
source identifier writes nothing.  The frame is written before the `await`,
so it appears whether or not the extractor later throws. -/
def sourceEvents (s : String) : List Event :=
  if s == "linkedin" then [Event.progress "Searching LinkedIn..." 20]
  else if s == "naukri" then [Event.progress "Searching Naukri.com..." 40]
  else []

/-- The records the source at loop index `i` contributes to `allJobs`
(line 261): on success the extracted list truncated with
`slice(0, resultsPerSource)`; when the extractor throws, the `catch` on
line 262 swallows the error before the append runs, so the contribution is
empty; an unknown source identifier leaves `sourceJobs = []`. -/
def sourceJobs (env : Env) (r i : Nat) (s : String) : List Job :=
  if s == "linkedin" then
    match env.extract i with
    | Except.ok js => js.take r
    | Except.error _ => []
  else if s == "naukri" then
    match env.extract i with
    | Except.ok js => js.take r
    | Except.error _ => []
  else []

/-- The source loop of lines 245-265, starting at loop index `i`: returns
the frames written and the accumulated `allJobs`, in iteration order. -/
def scrapeFrom (env : Env) (r : Nat) : Nat → List String → List Event × List Job
  | _, [] => ([], [])
  | i, s :: rest =>
    let tail := scrapeFrom env r (i + 1) rest
    (sourceEvents s ++ tail.1, sourceJobs env r i s ++ tail.2)

/-- One iteration of the enrichment loop body (lines 273-281) applied to the
job at index `i`.  The `await findCareerPage` throwing skips the assignment
of `careerPageUrl`; a truthy `careerPageUrl` triggers the `findHREmail`
call, whose throw leaves `hrEmail` unassigned; the per-job `catch` swallows
either failure. -/
def enrichJob (env : Env) (i : Nat) (job : Job) : Job :=
  match env.cp i with
  | Except.error _ => job
  | Except.ok cpv =>
    let job1 : Job := { job with careerPageUrl := some cpv }
    if jsTruthyStr cpv then
      match env.hr i with
      | Except.error _ => job1
      | Except.ok hv => { job1 with hrEmail := some hv }
    else job1

/-- The enrichment loop of line 272, `for (i = 0; i < bound; i++)`, acting
on the suffix of the job list that starts at index `k`. -/
def enrichFrom (env : Env) (bound : Nat) : Nat → List Job → List Job
  | _, [] => []
  | k, j :: rest =>
    (if k < bound then enrichJob env k j else j) :: enrichFrom env bound (k + 1) rest

/-- Lines 272-282: enrich the first `min(allJobs.length, 5)` jobs in place,
sequentially, leaving the rest untouched. -/
def enrichJobs (env : Env) (jobs : List Job) : List Job :=
  enrichFrom env (min jobs.length 5) 0 jobs

/-- The `POST /api/scrape` handler (lines 233-297).  A falsy `keywords`
returns the synchronous 400 (lines 236-238); otherwise the handler computes
the per-source budget once (line 242), runs the source loop, writes the
percent-60 frame (line 268), runs the enrichment loop, then writes the
percent-100 frame and the single `complete` frame (lines 284-290). -/
def handleScrape (env : Env) (req : Request) : Response :=
  if jsTruthyStr req.keywords = false then
    Response.badRequest "Keywords are required"
  else
    let r := resultsPerSource (req.maxResults.getD 20) req.sources.length
    let p := scrapeFrom env r 0 req.sources
    Response.stream (p.1 ++
      [Event.progress "Finding career pages..." 60,
       Event.progress "Complete!" 100,
       Event.complete (enrichJobs env p.2)])

/-! Helpers for observing a response. -/

/-- Whether a frame is the terminal `complete` frame. -/
def Event.isComplete : Event → Bool
  | Event.complete _ => true
  | _ => false

/-- The percent values of the progress frames, in write order. -/
def progressValues (evs : List Event) : List Nat :=
  evs.filterMap fun e =>
    match e with
    | Event.progress _ p => some p
    | _ => none

/-- The frames of a streaming response (empty for a synchronous error). -/
def streamEventsOf : Response → List Event
  | Response.stream evs => evs
  | _ => []

/-- The job list carried by the first `complete` frame, if any. -/
def completeJobsOf (r : Response) : Option (List Job) :=
  (streamEventsOf r).findSome? fun e =>
    match e with
    | Event.complete js => some js
    | _ => none

/-- A list of percent values is non-decreasing. -/
def nonDecreasing : List Nat → Bool
  | [] => true
  | [_] => true
  | a :: b :: rest => decide (a ≤ b) && nonDecreasing (b :: rest)

/-- The list of sources contains no occurrence of `naukri` that is followed,
anywhere later in the list, by an occurrence of `linkedin`. -/
def noNaukriBeforeLinkedin : List String → Bool
  | [] => true
  | s :: rest =>
    (!(s == "naukri") || !(rest.contains "linkedin")) && noNaukriBeforeLinkedin rest

/-- Replace the outcome of the extraction call at loop index `i`. -/
def setExtract (env : Env) (i : Nat) (v : Except Unit (List Job)) : Env :=
  { env with extract := fun j => if j = i then v else env.extract j }

/-- The job record with its enrichment fields erased; two records agree on
every non-enrichment field exactly when their images under this map are
equal. -/
def sansEnrich (j : Job) : Job :=
  { j with careerPageUrl := none, hrEmail := none }

/-- The per-source blocks appended to `allJobs` by the source loop, in
iteration order, starting at loop index `i`. -/
def contributions (env : Env) (r : Nat) : Nat → List String → List (List Job)
  | _, [] => []
  | i, s :: rest => sourceJobs env r i s :: contributions env r (i + 1) rest

/-- The merged job list as assembled by the source loop of the handler. -/
def mergedJobs (env : Env) (req : Request) : List Job :=
  (scrapeFrom env (resultsPerSource (req.maxResults.getD 20) req.sources.length)
    0 req.sources).2

/-!
Models of the enrichment helpers `findCareerPage` (lines 169-193) and
`findHREmail` (lines 196-230).  In both functions `getBrowser()` and
`browser.newPage()` are evaluated before the `try` block, and
`page.close()` runs in the `finally` clause; the environment records
whether each of these external steps succeeds.
-/

/-- Outcomes of the external page-session steps of one enrichment helper
call: `newPageOk` covers `getBrowser()` and `browser.newPage()` (evaluated
before the `try`), `gotoOk` covers `setUserAgent`/`goto`, `evalOk` covers
`page.evaluate`, and `closeOk` covers the `finally` `page.close()`. -/
structure PageEnv where
  newPageOk : Bool
  gotoOk : Bool
  evalOk : Bool
  closeOk : Bool
deriving DecidableEq, Repr

/-- Whether the character list `s` starts with the pattern `pat`. -/
def seqStartsWith : List Char → List Char → Bool
  | [], _ => true
  | _ :: _, [] => false
  | p :: ps, c :: cs => p == c && seqStartsWith ps cs

/-- Whether the pattern `pat` occurs contiguously anywhere in `s`. -/
def containsSeq (pat : List Char) : List Char → Bool
  | [] => seqStartsWith pat []
  | c :: cs => seqStartsWith pat (c :: cs) || containsSeq pat cs

/-- Line 216: the case-insensitive test
`/hr|careers|recruitment|jobs|talent/i.test(email)`, i.e. one of the five
literal patterns occurs in the email after lowercasing. -/
def roleTest (e : String) : Bool :=
  ["hr", "careers", "recruitment", "jobs", "talent"].any fun p =>
    containsSeq p.toList (e.toList.map Char.toLower)

/-- Lines 213-220: the selection among the email-like substrings extracted
from the page text (`emails`, in page order; the empty list models the
regex matching nothing).  `emails.find(...) || emails[0]` falls back to the
first email when the find misses or returns a falsy (empty) string. -/
def selectEmail (emails : List String) : Option String :=
  match emails with
  | [] => none
  | e0 :: _ =>
    match emails.find? roleTest with
    | some hrE => some (if hrE == "" then e0 else hrE)
    | none => some e0

/-- Lines 169-193, `findCareerPage`.  `firstResultHref` is the value the
in-page query would produce (`firstResult ? firstResult.href : null`).  A
failure of `getBrowser`/`newPage` occurs before the `try` and therefore
escapes as an exception; a failure of navigation or evaluation is caught
and turned into `null`; a failure of the `finally` `page.close()` replaces
any outcome with an exception. -/
def findCareerPage (env : PageEnv) (firstResultHref : Option String) :
    Except Unit (Option String) :=
  if env.newPageOk then
    let result : Option String :=
      if env.gotoOk && env.evalOk then firstResultHref else none
    if env.closeOk then Except.ok result else Except.error ()
  else Except.error ()

/-- Lines 196-230, `findHREmail`.  A falsy URL returns `null` before any
session is created; otherwise the page session opens (before the `try`),
the page is navigated and its text scanned for emails, with the same
exception structure as `findCareerPage`. -/
def findHREmail (careerPageUrl : Option String) (env : PageEnv)
    (emails : List String) : Except Unit (Option String) :=
  if jsTruthyStr careerPageUrl = false then Except.ok none
  else if env.newPageOk then
    let result : Option String :=
      if env.gotoOk && env.evalOk then selectEmail emails else none
    if env.closeOk then Except.ok result else Except.error ()
  else Except.error ()

/-! Derived observations used in the statements, and concrete instances
used by counterexamples and witnesses. -/

/-- The percent value contributed by one source identifier, if any. -/
def pvSrc (s : String) : Option Nat :=
  if s == "linkedin" then some 20 else if s == "naukri" then some 40 else none

/-- The percent values of the per-source progress frames, in source order. -/
def pvOf (srcs : List String) : List Nat := srcs.filterMap pvSrc

/-- The frames written by the source loop, in order. -/
def eventsOf (srcs : List String) : List Event := (srcs.map sourceEvents).flatten

/-- The three frames written after the source loop (lines 268, 284, 287). -/
def tailEvents (jobs : List Job) : List Event :=
  [Event.progress "Finding career pages..." 60,
   Event.progress "Complete!" 100,
   Event.complete jobs]

/-- A minimal scraped job record, as the extractors build them. -/
def jobA : Job :=
  { id := "a", title := "t", company := "c", jobUrl := "u",
    source := "linkedin", status := "scraped" }

/-- An environment whose every extraction call returns two records and whose
enrichment lookups find nothing. -/
def envTwo : Env :=
  { extract := fun _ => Except.ok [jobA, jobA]
    cp := fun _ => Except.ok none
    hr := fun _ => Except.ok none }

/-- A request with both known sources and an odd `maxResults`. -/
def reqOdd : Request :=
  { keywords := some "backend engineer"
    sources := ["linkedin", "naukri"]
    maxResults := some 3 }

/-- A request listing the sources in the order naukri, linkedin. -/
def reqNL : Request :=
  { keywords := some "x"
    sources := ["naukri", "linkedin"]
    maxResults := some 20 }

/-- An environment whose extraction call at loop index 1 throws and whose
other extraction calls succeed with two records. -/
def envOneFail : Env :=
  { extract := fun i => if i = 1 then Except.error () else Except.ok [jobA, jobA]
    cp := fun _ => Except.ok none
    hr := fun _ => Except.ok none }

/-- A request listing linkedin then naukri. -/
def reqLN : Request :=
  { keywords := some "backend engineer"
    sources := ["linkedin", "naukri"]
    maxResults := some 10 }

/-- A request with the maxResults field absent, exercising the default. -/
def reqDefault : Request :=
  { keywords := some "devops"
    sources := ["linkedin", "naukri"] }

/-- An environment whose extraction yields one raw record and whose
enrichment lookups both succeed. -/
def envEnrich : Env :=
  { extract := fun _ => Except.ok [jobA]
    cp := fun _ => Except.ok (some "http://careers.example.com")
    hr := fun _ => Except.ok (some "hr@example.com") }

/-- The record `jobA` after a successful enrichment iteration against
`envEnrich`. -/
def jobE : Job :=
  { jobA with careerPageUrl := some (some "http://careers.example.com")
              hrEmail := some (some "hr@example.com") }

/-- A page environment in which creating the page session fails. -/
def badPageEnv : PageEnv :=
  { newPageOk := false, gotoOk := true, evalOk := true, closeOk := true }

/-- A page environment in which every external step succeeds. -/
def goodPageEnv : PageEnv :=
  { newPageOk := true, gotoOk := true, evalOk := true, closeOk := true }

/-! Structural lemmas about the source loop and the stream shape. -/

theorem scrapeFrom_fst (env : Env) (r : Nat) :
    ∀ (srcs : List String) (i : Nat), (scrapeFrom env r i srcs).1 = eventsOf srcs := by
  intro srcs
  induction srcs with
  | nil => intro i; rfl
  | cons s rest ih =>
    intro i
    show sourceEvents s ++ (scrapeFrom env r (i + 1) rest).1 = eventsOf (s :: rest)
    rw [ih (i + 1)]
    rfl

theorem handleScrape_stream (env : Env) (req : Request)
    (hk : jsTruthyStr req.keywords = true) :
    handleScrape env req =
      Response.stream (eventsOf req.sources ++
        tailEvents (enrichJobs env (mergedJobs env req))) := by
  unfold handleScrape
  rw [if_neg (by simp [hk])]
  simp only [scrapeFrom_fst, mergedJobs, tailEvents]

theorem progressValues_append (a b : List Event) :
    progressValues (a ++ b) = progressValues a ++ progressValues b := by
  simp [progressValues]

theorem progressValues_eventsOf (srcs : List String) :
    progressValues (eventsOf srcs) = pvOf srcs := by
  induction srcs with
  | nil => rfl
  | cons s rest ih =>
    show progressValues (sourceEvents s ++ eventsOf rest) = pvOf (s :: rest)
    rw [progressValues_append, ih]
    by_cases h1 : s == "linkedin"
    · simp [sourceEvents, pvSrc, pvOf, List.filterMap_cons, h1, progressValues]
    · by_cases h2 : s == "naukri"
      · simp [sourceEvents, pvSrc, pvOf, List.filterMap_cons, h1, h2, progressValues]
      · simp [sourceEvents, pvSrc, pvOf, List.filterMap_cons, h1, h2, progressValues]

theorem eventsOf_filter_isComplete (srcs : List String) :
    (eventsOf srcs).filter Event.isComplete = [] := by
  induction srcs with
  | nil => rfl
  | cons s rest ih =>
    show (sourceEvents s ++ eventsOf rest).filter Event.isComplete = []
    rw [List.filter_append, ih]
    by_cases h1 : s == "linkedin"
    · simp [sourceEvents, h1, Event.isComplete]
    · by_cases h2 : s == "naukri"
      · simp [sourceEvents, h1, h2, Event.isComplete]
      · simp [sourceEvents, h1, h2]

theorem stream_filter_isComplete (srcs : List String) (jobs : List Job) :
    (eventsOf srcs ++ tailEvents jobs).filter Event.isComplete =
      [Event.complete jobs] := by
  rw [List.filter_append, eventsOf_filter_isComplete]
  rfl

theorem stream_getLast (srcs : List String) (jobs : List Job) :
    (eventsOf srcs ++ tailEvents jobs).getLast? = some (Event.complete jobs) := by
  rw [List.getLast?_append]
  rfl

/-! Monotonicity of the percent values over suitably ordered source lists. -/

theorem mem_pvOf (v : Nat) (srcs : List String) (h : v ∈ pvOf srcs) :
    v = 20 ∨ v = 40 := by
  rw [pvOf, List.mem_filterMap] at h
  obtain ⟨s, -, hs⟩ := h
  unfold pvSrc at hs
  by_cases h1 : s == "linkedin"
  · simp [h1] at hs; left; omega
  · by_cases h2 : s == "naukri"
    · simp [h1, h2] at hs; right; omega
    · simp [h1, h2] at hs

theorem mem_pvOf_no_linkedin (v : Nat) (srcs : List String)
    (hnl : "linkedin" ∉ srcs) (h : v ∈ pvOf srcs) : v = 40 := by
  rw [pvOf, List.mem_filterMap] at h
  obtain ⟨s, hmem, hs⟩ := h
  unfold pvSrc at hs
  by_cases h1 : s == "linkedin"
  · have hsl : s = "linkedin" := by simpa using h1
    exact absurd (hsl ▸ hmem) hnl
  · by_cases h2 : s == "naukri"
    · simp [h1, h2] at hs; omega
    · simp [h1, h2] at hs

theorem nonDecreasing_cons (a : Nat) (l : List Nat)
    (h1 : ∀ b, l.head? = some b → a ≤ b) (h2 : nonDecreasing l = true) :
    nonDecreasing (a :: l) = true := by
  cases l with
  | nil => rfl
  | cons b rest =>
    have := h1 b rfl
    simp [nonDecreasing, this, h2]

theorem pvOf_tail_nonDecreasing (srcs : List String)
    (h : noNaukriBeforeLinkedin srcs = true) :
    nonDecreasing (pvOf srcs ++ [60, 100]) = true := by
  induction srcs with
  | nil => rfl
  | cons s rest ih =>
    rw [noNaukriBeforeLinkedin, Bool.and_eq_true] at h
    obtain ⟨hhead, htail⟩ := h
    have ihr := ih htail
    show nonDecreasing (pvOf (s :: rest) ++ [60, 100]) = true
    rw [pvOf, List.filterMap_cons]
    by_cases h1 : s == "linkedin"
    · simp only [pvSrc, h1, if_pos]
      rw [List.cons_append]
      refine nonDecreasing_cons _ _ ?_ ihr
      intro b hb
      cases hp : pvOf rest with
      | nil => rw [pvOf] at hp; simp [hp] at hb; omega
      | cons c cs =>
        rw [pvOf] at hp
        simp [hp] at hb
        have hc : c ∈ pvOf rest := by rw [pvOf, hp]; exact List.mem_cons_self c cs
        rcases mem_pvOf c rest hc with h20 | h40 <;> omega
    · by_cases h2 : s == "naukri"
      · simp only [pvSrc, h1, h2, if_neg, if_pos, Bool.false_eq_true,
          not_false_iff]
        rw [List.cons_append]
        refine nonDecreasing_cons _ _ ?_ ihr
        intro b hb
        have hnl : "linkedin" ∉ rest := by
          simp [h2] at hhead
          simpa using hhead
        cases hp : pvOf rest with
        | nil => rw [pvOf] at hp; simp [hp] at hb; omega
        | cons c cs =>
          rw [pvOf] at hp
          simp [hp] at hb
          have hc : c ∈ pvOf rest := by rw [pvOf, hp]; exact List.mem_cons_self c cs
          have := mem_pvOf_no_linkedin c rest hnl hc
          omega
      · simp only [pvSrc, h1, h2, Bool.false_eq_true, not_false_iff, if_neg]
        exact ihr

/-! Length and decomposition lemmas for the merged job list. -/

theorem sourceJobs_length_le (env : Env) (r i : Nat) (s : String) :
    (sourceJobs env r i s).length ≤ r := by
  unfold sourceJobs
  by_cases h1 : s == "linkedin"
  · simp only [h1, if_pos]
    cases env.extract i with
    | ok js => simp [List.length_take]
    | error e => simp
  · by_cases h2 : s == "naukri"
    · simp only [h1, h2, Bool.false_eq_true, not_false_iff, if_neg, if_pos]
      cases env.extract i with
      | ok js => simp [List.length_take]
      | error e => simp
    · simp [h1, h2]

theorem contributions_length (env : Env) (r : Nat) :
    ∀ (srcs : List String) (i : Nat),
      (contributions env r i srcs).length = srcs.length := by
  intro srcs
  induction srcs with
  | nil => intro i; rfl
  | cons s rest ih =>
    intro i
    show (sourceJobs env r i s :: contributions env r (i + 1) rest).length = _
    simp [ih (i + 1)]

theorem contributions_flatten (env : Env) (r : Nat) :
    ∀ (srcs : List String) (i : Nat),
      (contributions env r i srcs).flatten = (scrapeFrom env r i srcs).2 := by
  intro srcs
  induction srcs with
  | nil => intro i; rfl
  | cons s rest ih =>
    intro i
    show (sourceJobs env r i s :: contributions env r (i + 1) rest).flatten = _
    rw [List.flatten_cons, ih (i + 1)]
    rfl

theorem mem_contributions_length_le (env : Env) (r : Nat) :
    ∀ (srcs : List String) (i : Nat) (b : List Job),
      b ∈ contributions env r i srcs → b.length ≤ r := by
  intro srcs
  induction srcs with
  | nil => intro i b h; cases h
  | cons s rest ih =>
    intro i b h
    rcases List.mem_cons.mp h with rfl | hmem
    · exact sourceJobs_length_le env r i s
    · exact ih (i + 1) b hmem

theorem scrapeFrom_snd_length_le (env : Env) (r : Nat) :
    ∀ (srcs : List String) (i : Nat),
      (scrapeFrom env r i srcs).2.length ≤ srcs.length * r := by
  intro srcs
  induction srcs with
  | nil => intro i; simp [scrapeFrom]
  | cons s rest ih =>
    intro i
    show (sourceJobs env r i s ++ (scrapeFrom env r (i + 1) rest).2).length ≤ _
    rw [List.length_append, List.length_cons, Nat.succ_mul]
    have h1 := sourceJobs_length_le env r i s
    have h2 := ih (i + 1)
    omega

/-! The ceiling characterisation of the per-source budget. -/

theorem resultsPerSource_ceil (m n : Nat) (hn : 0 < n) (hm : 0 < m) :
    m ≤ n * resultsPerSource m n ∧ n * resultsPerSource m n < m + n := by
  unfold resultsPerSource
  have hq : (m + n - 1) / n < (m + n - 1) / n + 1 := Nat.lt_succ_self _
  rw [Nat.div_lt_iff_lt_mul hn, Nat.succ_mul] at hq
  have hlow : (m + n - 1) / n * n ≤ m + n - 1 := Nat.div_mul_le_self _ _
  rw [mul_comm]
  generalize (m + n - 1) / n * n = P at hq hlow
  omega

/-! Replacing a throwing extractor by one returning zero records. -/

theorem sourceJobs_setExtract (env : Env) (r : Nat) (i : Nat)
    (he : env.extract i = Except.error ()) :
    ∀ (k : Nat) (s : String),
      sourceJobs (setExtract env i (Except.ok [])) r k s = sourceJobs env r k s := by
  intro k s
  unfold sourceJobs setExtract
  by_cases hk : k = i
  · subst hk
    simp [he]
  · simp [hk]

theorem scrapeFrom_setExtract (env : Env) (r : Nat) (i : Nat)
    (he : env.extract i = Except.error ()) :
    ∀ (srcs : List String) (k : Nat),
      scrapeFrom (setExtract env i (Except.ok [])) r k srcs =
        scrapeFrom env r k srcs := by
  intro srcs
  induction srcs with
  | nil => intro k; rfl
  | cons s rest ih =>
    intro k
    show (sourceEvents s ++ _, sourceJobs _ r k s ++ _) = _
    rw [sourceJobs_setExtract env r i he k s, ih (k + 1)]
    rfl

/-! Lemmas about the enrichment loop. -/

theorem enrichFrom_length (env : Env) (b : Nat) :
    ∀ (jobs : List Job) (k : Nat), (enrichFrom env b k jobs).length = jobs.length := by
  intro jobs
  induction jobs with
  | nil => intro k; rfl
  | cons j rest ih =>
    intro k
    show (_ :: enrichFrom env b (k + 1) rest).length = _
    simp [ih (k + 1)]

theorem enrichJobs_length (env : Env) (jobs : List Job) :
    (enrichJobs env jobs).length = jobs.length :=
  enrichFrom_length env (min jobs.length 5) jobs 0

theorem enrichFrom_getElem_untouched (env : Env) (b : Nat) :
    ∀ (jobs : List Job) (k i : Nat), b ≤ k + i →
      (enrichFrom env b k jobs)[i]? = jobs[i]? := by
  intro jobs
  induction jobs with
  | nil => intro k i _; rfl
  | cons j rest ih =>
    intro k i hbi
    cases i with
    | zero =>
      have hnot : ¬ k < b := by omega
      show ((if k < b then enrichJob env k j else j) :: enrichFrom env b (k + 1) rest)[0]? = (j :: rest)[0]?
      rw [if_neg hnot]
      simp
    | succ n =>
      show ((if k < b then enrichJob env k j else j) :: enrichFrom env b (k + 1) rest)[n + 1]? = (j :: rest)[n + 1]?
      rw [List.getElem?_cons_succ, List.getElem?_cons_succ]
      exact ih (k + 1) n (by omega)

theorem sansEnrich_enrichJob (env : Env) (k : Nat) (j : Job) :
    sansEnrich (enrichJob env k j) = sansEnrich j := by
  unfold enrichJob
  cases env.cp k with
  | error e => rfl
  | ok cpv =>
    by_cases hcp : jsTruthyStr cpv
    · simp only [hcp, if_pos]
      cases env.hr k with
      | error e => rfl
      | ok hv => rfl
    · simp only [hcp, Bool.false_eq_true, not_false_iff, if_neg]
      rfl

theorem enrichFrom_map_sansEnrich (env : Env) (b : Nat) :
    ∀ (jobs : List Job) (k : Nat),
      (enrichFrom env b k jobs).map sansEnrich = jobs.map sansEnrich := by
  intro jobs
  induction jobs with
  | nil => intro k; rfl
  | cons j rest ih =>
    intro k
    show sansEnrich (if k < b then enrichJob env k j else j) ::
        (enrichFrom env b (k + 1) rest).map sansEnrich = _
    rw [ih (k + 1)]
    by_cases hk : k < b
    · rw [if_pos hk, sansEnrich_enrichJob]
      rfl
    · rw [if_neg hk]
      rfl

theorem enrichJob_hrEmail_inv (env : Env) (k : Nat) (j : Job)
    (hj : j.hrEmail = none) :
    (enrichJob env k j).hrEmail ≠ none →
      ∃ u, (enrichJob env k j).careerPageUrl = some (some u) ∧ u ≠ "" := by
  unfold enrichJob
  cases hcpk : env.cp k with
  | error e => intro hne; exact absurd hj hne
  | ok cpv =>
    by_cases hcp : jsTruthyStr cpv
    · simp only [hcp, if_pos]
      cases hhrk : env.hr k with
      | error e => intro hne; exact absurd hj hne
      | ok hv =>
        intro _
        cases cpv with
        | none => simp [jsTruthyStr] at hcp
        | some u =>
          refine ⟨u, rfl, ?_⟩
          simp [jsTruthyStr] at hcp
          exact hcp
    · simp only [hcp, Bool.false_eq_true, not_false_iff, if_neg]
      intro hne
      exact absurd hj hne

theorem enrichFrom_hrEmail_inv (env : Env) (b : Nat) :
    ∀ (jobs : List Job) (k : Nat), (∀ j ∈ jobs, j.hrEmail = none) →
      ∀ j2 ∈ enrichFrom env b k jobs, j2.hrEmail ≠ none →
        ∃ u, j2.careerPageUrl = some (some u) ∧ u ≠ "" := by
  intro jobs
  induction jobs with
  | nil => intro k _ j2 hmem; cases hmem
  | cons j rest ih =>
    intro k hall j2 hmem hne
    rcases List.mem_cons.mp hmem with hj2 | htail
    · subst hj2
      by_cases hk : k < b
      · rw [if_pos hk] at hne ⊢
        exact enrichJob_hrEmail_inv env k j (hall j (List.mem_cons_self j rest)) hne
      · rw [if_neg hk] at hne
        exact absurd (hall j (List.mem_cons_self j rest)) hne
    · exact ih (k + 1) (fun x hx => hall x (List.mem_cons_of_mem j hx)) j2 htail hne

/-! Membership in the merged list comes from some successful extraction. -/

theorem mem_sourceJobs (env : Env) (r i : Nat) (s : String) (j : Job)
    (h : j ∈ sourceJobs env r i s) :
    ∃ js, env.extract i = Except.ok js ∧ j ∈ js := by
  unfold sourceJobs at h
  by_cases h1 : s == "linkedin"
  · simp only [h1, if_pos] at h
    cases hx : env.extract i with
    | ok js =>
      rw [hx] at h
      exact ⟨js, rfl, List.take_subset r js h⟩
    | error e => rw [hx] at h; cases h
  · by_cases h2 : s == "naukri"
    · simp only [h1, h2, Bool.false_eq_true, not_false_iff, if_neg, if_pos] at h
      cases hx : env.extract i with
      | ok js =>
        rw [hx] at h
        exact ⟨js, rfl, List.take_subset r js h⟩
      | error e => rw [hx] at h; cases h
    · simp [h1, h2] at h

theorem mem_scrapeFrom_snd (env : Env) (r : Nat) :
    ∀ (srcs : List String) (i : Nat) (j : Job),
      j ∈ (scrapeFrom env r i srcs).2 →
        ∃ k js, env.extract k = Except.ok js ∧ j ∈ js := by
  intro srcs
  induction srcs with
  | nil => intro i j h; cases h
  | cons s rest ih =>
    intro i j h
    have h2 : j ∈ sourceJobs env r i s ++ (scrapeFrom env r (i + 1) rest).2 := h
    rcases List.mem_append.mp h2 with hl | hr
    · obtain ⟨js, hx, hmem⟩ := mem_sourceJobs env r i s j hl
      exact ⟨i, js, hx, hmem⟩
    · exact ih (i + 1) j hr

/-! Locating the complete frame inside a stream. -/

theorem eventsOf_all_progress (srcs : List String) :
    ∀ e ∈ eventsOf srcs, e.isComplete = false := by
  intro e he
  have hf := eventsOf_filter_isComplete srcs
  rw [List.filter_eq_nil_iff] at hf
  simpa using hf e he

theorem findSome?_complete_none (evs : List Event)
    (h : ∀ e ∈ evs, e.isComplete = false) :
    (evs.findSome? fun e =>
      match e with
      | Event.complete js => some js
      | _ => none) = (none : Option (List Job)) := by
  induction evs with
  | nil => rfl
  | cons e rest ih =>
    have he := h e (List.mem_cons_self e rest)
    cases e with
    | progress m p =>
      show (rest.findSome? fun e =>
        match e with
        | Event.complete js => some js
        | _ => none) = none
      exact ih fun x hx => h x (List.mem_cons_of_mem _ hx)
    | complete js => simp [Event.isComplete] at he

theorem findSome?_none_append {α β : Type} (f : α → Option β) :
    ∀ l1 l2 : List α, l1.findSome? f = none →
      (l1 ++ l2).findSome? f = l2.findSome? f := by
  intro l1
  induction l1 with
  | nil => intro l2 _; rfl
  | cons a rest ih =>
    intro l2 h1
    cases hfa : f a with
    | some b =>
      exfalso
      have : (a :: rest).findSome? f = some b := by
        show (match f a with | some b => some b | none => rest.findSome? f) = some b
        rw [hfa]
      rw [h1] at this
      cases this
    | none =>
      have h2 : rest.findSome? f = none := by
        have : (a :: rest).findSome? f = rest.findSome? f := by
          show (match f a with | some b => some b | none => rest.findSome? f) = _
          rw [hfa]
        rw [← this]
        exact h1
      show (match f a with | some b => some b | none => (rest ++ l2).findSome? f) = _
      rw [hfa]
      exact ih l2 h2

theorem completeJobsOf_stream (srcs : List String) (jobs : List Job) :
    completeJobsOf (Response.stream (eventsOf srcs ++ tailEvents jobs)) =
      some jobs := by
  unfold completeJobsOf streamEventsOf
  rw [findSome?_none_append _ (eventsOf srcs) (tailEvents jobs)
    (findSome?_complete_none (eventsOf srcs) (eventsOf_all_progress srcs))]
  rfl

/-! Environments that preserve the enrichment oracles give the same
enrichment result. -/

theorem enrichJob_congr (env1 env2 : Env) (hcp : env1.cp = env2.cp)
    (hhr : env1.hr = env2.hr) (k : Nat) (j : Job) :
    enrichJob env1 k j = enrichJob env2 k j := by
  unfold enrichJob
  rw [hcp, hhr]

theorem enrichFrom_congr (env1 env2 : Env) (hcp : env1.cp = env2.cp)
    (hhr : env1.hr = env2.hr) (b : Nat) :
    ∀ (jobs : List Job) (k : Nat),
      enrichFrom env1 b k jobs = enrichFrom env2 b k jobs := by
  intro jobs
  induction jobs with
  | nil => intro k; rfl
  | cons j rest ih =>
    intro k
    show (if k < b then enrichJob env1 k j else j) :: enrichFrom env1 b (k + 1) rest = _
    rw [ih (k + 1), enrichJob_congr env1 env2 hcp hhr]
    rfl

/-! Claim theorems. -/

/-- Claim C3: for every request whose keywords field is missing, the handler
answers with the synchronous 400 response carrying exactly the error body
`Keywords are required`, and the response carries no stream frame, neither
progress nor complete. -/
theorem C3_missing_keywords (env : Env) (req : Request)
    (h : req.keywords = none) :
    handleScrape env req = Response.badRequest "Keywords are required" ∧
    streamEventsOf (handleScrape env req) = [] := by
  have h400 : handleScrape env req = Response.badRequest "Keywords are required" := by
    unfold handleScrape
    rw [h]
    rfl
  exact ⟨h400, by rw [h400]; rfl⟩

/-- Witness for C3 at the concrete request with no keywords field. -/
theorem C3_missing_keywords_witness :
    handleScrape envTwo { sources := ["linkedin"] } =
      Response.badRequest "Keywords are required" ∧
    streamEventsOf (handleScrape envTwo { sources := ["grather"] }) = [] := by
  refine ⟨(C3_missing_keywords envTwo { sources := ["linkedin"] } rfl).1, ?_⟩
  exact (C3_missing_keywords envTwo { sources := ["grather"] } rfl).2

/-- Claim C10: a request with truthy keywords and an empty sources list is
not rejected: the stream consists of the enrichment progress frame, the
completion progress frame, and one complete frame with an empty job list. -/
theorem C10_empty_sources_streams (env : Env) (req : Request)
    (hk : jsTruthyStr req.keywords = true) (hs : req.sources = []) :
    handleScrape env req = Response.stream
      [Event.progress "Finding career pages..." 60,
       Event.progress "Complete!" 100,
       Event.complete []] := by
  have h1 : mergedJobs env req = [] := by
    unfold mergedJobs
    rw [hs]
    rfl
  rw [handleScrape_stream env req hk, hs, h1]
  rfl

/-- Witness for C10 at a concrete request with keywords present and the
sources field equal to the empty list. -/
theorem C10_empty_sources_streams_witness :
    handleScrape envTwo { keywords := some "backend", sources := [] } =
      Response.stream
        [Event.progress "Finding career pages..." 60,
         Event.progress "Complete!" 100,
         Event.complete []] :=
  C10_empty_sources_streams envTwo { keywords := some "backend", sources := [] }
    rfl rfl

/-- Claim C1 is false as stated: for the valid request `reqOdd` (keywords
present, sources the two known identifiers, maxResults the positive integer
3) and extractors returning two records each, the complete frame carries 4
jobs, exceeding maxResults: the handler truncates per source with
`slice(0, resultsPerSource)` but never truncates the merged list. -/
theorem C1_counterexample :
    jsTruthyStr reqOdd.keywords = true ∧
    reqOdd.sources = ["linkedin", "naukri"] ∧
    reqOdd.maxResults = some 3 ∧
    (completeJobsOf (handleScrape envTwo reqOdd)).map List.length = some 4 := by
  refine ⟨rfl, rfl, rfl, by decide⟩

/-- Claim C1 amended: the complete frame carries the merged list unchanged
in length, and that length is at most `sources.length * ceil(maxResults /
sources.length)`; no truncation to `maxResults` itself is performed, so the
total may exceed `maxResults` (as in the counterexample). -/
theorem C1_amended_merge_bound (env : Env) (req : Request)
    (hk : jsTruthyStr req.keywords = true)
    (hs : req.sources ≠ []) (hm : 0 < req.maxResults.getD 20) :
    ∃ jobs, completeJobsOf (handleScrape env req) = some jobs ∧
      jobs.length ≤ req.sources.length *
        resultsPerSource (req.maxResults.getD 20) req.sources.length := by
  refine ⟨enrichJobs env (mergedJobs env req), ?_, ?_⟩
  · rw [handleScrape_stream env req hk]
    exact completeJobsOf_stream req.sources _
  · rw [enrichJobs_length]
    exact scrapeFrom_snd_length_le env _ req.sources 0

/-- Witness for C1 amended at the counterexample request. -/
theorem C1_amended_merge_bound_witness :
    ∃ jobs, completeJobsOf (handleScrape envTwo reqOdd) = some jobs ∧
      jobs.length ≤ reqOdd.sources.length *
        resultsPerSource (reqOdd.maxResults.getD 20) reqOdd.sources.length :=
  C1_amended_merge_bound envTwo reqOdd rfl (by decide) (by decide)

/-- Claim C2 is false as stated: with the caller-specified source ordering
naukri before linkedin the progress percents run 40, 20, 60, 100, which is
not non-decreasing. -/
theorem C2_counterexample :
    progressValues (streamEventsOf (handleScrape envTwo reqNL)) =
      [40, 20, 60, 100] ∧
    nonDecreasing (progressValues (streamEventsOf (handleScrape envTwo reqNL))) =
      false := by
  exact ⟨by decide, by decide⟩

/-- Claim C2 amended: for every request that begins streaming, exactly one
complete frame is emitted and it is the last frame; the progress percents
are non-decreasing provided no naukri entry precedes a linkedin entry in
the caller-specified sources list (the fixed per-source percents 20 and 40
make the ordering with naukri first decrease, as in the counterexample). -/
theorem C2_amended_stream_shape (env : Env) (req : Request)
    (hk : jsTruthyStr req.keywords = true) :
    ∃ evs jobs, handleScrape env req = Response.stream evs ∧
      evs.filter Event.isComplete = [Event.complete jobs] ∧
      evs.getLast? = some (Event.complete jobs) ∧
      (noNaukriBeforeLinkedin req.sources = true →
        nonDecreasing (progressValues evs) = true) := by
  refine ⟨_, enrichJobs env (mergedJobs env req),
    handleScrape_stream env req hk, ?_, ?_, ?_⟩
  · exact stream_filter_isComplete _ _
  · exact stream_getLast _ _
  · intro hord
    rw [progressValues_append, progressValues_eventsOf]
    exact pvOf_tail_nonDecreasing req.sources hord

/-- Witness for C2 amended at a concrete streaming request. -/
theorem C2_amended_stream_shape_witness :
    ∃ evs jobs, handleScrape envTwo reqOdd = Response.stream evs ∧
      evs.filter Event.isComplete = [Event.complete jobs] ∧
      evs.getLast? = some (Event.complete jobs) ∧
      (noNaukriBeforeLinkedin reqOdd.sources = true →
        nonDecreasing (progressValues evs) = true) :=
  C2_amended_stream_shape envTwo reqOdd rfl

/-- Claim C4: when the extractor invoked at source-loop index `i` throws,
the run is indistinguishable from one in which that extractor returned zero
records: the same frames are written (every frame is a progress or complete
frame, there being no error frame in the protocol), extraction of the
remaining sources still runs, and the stream still terminates with exactly
one complete frame, the last, carrying the records of the sources that
succeeded. -/
theorem C4_failure_isolation (env : Env) (req : Request) (i : Nat)
    (hk : jsTruthyStr req.keywords = true)
    (he : env.extract i = Except.error ()) :
    handleScrape env req = handleScrape (setExtract env i (Except.ok [])) req ∧
    ∃ evs jobs, handleScrape env req = Response.stream evs ∧
      evs.filter Event.isComplete = [Event.complete jobs] ∧
      evs.getLast? = some (Event.complete jobs) := by
  constructor
  · rw [handleScrape_stream env req hk,
      handleScrape_stream (setExtract env i (Except.ok [])) req hk]
    have hmerge : mergedJobs (setExtract env i (Except.ok [])) req =
        mergedJobs env req := by
      unfold mergedJobs
      rw [scrapeFrom_setExtract env _ i he]
    rw [hmerge]
    unfold enrichJobs
    rw [enrichFrom_congr (setExtract env i (Except.ok [])) env rfl rfl]
  · exact ⟨_, enrichJobs env (mergedJobs env req),
      handleScrape_stream env req hk,
      stream_filter_isComplete _ _, stream_getLast _ _⟩

/-- Witness for C4: the linkedin extraction succeeds while the naukri
extraction (loop index 1) throws. -/
theorem C4_failure_isolation_witness :
    handleScrape envOneFail reqLN =
      handleScrape (setExtract envOneFail 1 (Except.ok [])) reqLN ∧
    ∃ evs jobs, handleScrape envOneFail reqLN = Response.stream evs ∧
      evs.filter Event.isComplete = [Event.complete jobs] ∧
      evs.getLast? = some (Event.complete jobs) :=
  C4_failure_isolation envOneFail reqLN 1 rfl rfl

/-- Claim C5: enrichment acts only on the first `min(length, 5)` jobs of the
merged list: positions at index 5 and beyond are returned exactly as
merged, hence never carry a careerPageUrl or hrEmail field when the merged
records lack them, and erasing the two enrichment fields the whole list is
unchanged, so every non-enrichment field of every job is preserved. -/
theorem C5_enrichment_bounded (env : Env) (jobs : List Job)
    (h : ∀ j ∈ jobs, j.careerPageUrl = none ∧ j.hrEmail = none) :
    (∀ i, 5 ≤ i → (enrichJobs env jobs)[i]? = jobs[i]?) ∧
    (∀ i j2, 5 ≤ i → (enrichJobs env jobs)[i]? = some j2 →
      j2.careerPageUrl = none ∧ j2.hrEmail = none) ∧
    (enrichJobs env jobs).map sansEnrich = jobs.map sansEnrich := by
  have huntouched : ∀ i, 5 ≤ i → (enrichJobs env jobs)[i]? = jobs[i]? := by
    intro i hi
    refine enrichFrom_getElem_untouched env _ jobs 0 i ?_
    have := Nat.min_le_right jobs.length 5
    omega
  refine ⟨huntouched, ?_, enrichFrom_map_sansEnrich env _ jobs 0⟩
  intro i j2 hi hj2
  rw [huntouched i hi] at hj2
  exact h j2 (List.mem_iff_getElem?.mpr ⟨i, hj2⟩)

/-- Witness for C5 at a six-element merged list of raw records. -/
theorem C5_enrichment_bounded_witness :
    (∀ i, 5 ≤ i →
      (enrichJobs envTwo [jobA, jobA, jobA, jobA, jobA, jobA])[i]? =
        [jobA, jobA, jobA, jobA, jobA, jobA][i]?) ∧
    (∀ i j2, 5 ≤ i →
      (enrichJobs envTwo [jobA, jobA, jobA, jobA, jobA, jobA])[i]? = some j2 →
      j2.careerPageUrl = none ∧ j2.hrEmail = none) ∧
    (enrichJobs envTwo [jobA, jobA, jobA, jobA, jobA, jobA]).map sansEnrich =
      [jobA, jobA, jobA, jobA, jobA, jobA].map sansEnrich :=
  C5_enrichment_bounded envTwo [jobA, jobA, jobA, jobA, jobA, jobA] (by decide)

/-- Claim C6: the per-source budget is `ceil(maxResults / sources.length)`
with `maxResults` defaulting to 20 when absent (the two arithmetic
conjuncts pin `resultsPerSource` as that ceiling), the merged list splits
into one block per requested source with every block at most the budget
long, and the complete frame carries the enrichment of exactly that merged
list. -/
theorem C6_budget_even_split (env : Env) (req : Request)
    (hk : jsTruthyStr req.keywords = true)
    (hs : req.sources ≠ []) (hm : 0 < req.maxResults.getD 20) :
    ∃ blocks : List (List Job),
      blocks.length = req.sources.length ∧
      mergedJobs env req = blocks.flatten ∧
      (∀ b ∈ blocks, b.length ≤
        resultsPerSource (req.maxResults.getD 20) req.sources.length) ∧
      completeJobsOf (handleScrape env req) =
        some (enrichJobs env (mergedJobs env req)) ∧
      req.maxResults.getD 20 ≤ req.sources.length *
        resultsPerSource (req.maxResults.getD 20) req.sources.length ∧
      req.sources.length *
        resultsPerSource (req.maxResults.getD 20) req.sources.length <
        req.maxResults.getD 20 + req.sources.length := by
  have hn : 0 < req.sources.length := List.length_pos.mpr hs
  obtain ⟨hlow, hhigh⟩ :=
    resultsPerSource_ceil (req.maxResults.getD 20) req.sources.length hn hm
  refine ⟨contributions env
      (resultsPerSource (req.maxResults.getD 20) req.sources.length) 0 req.sources,
    contributions_length env _ req.sources 0, ?_, ?_, ?_, hlow, hhigh⟩
  · rw [contributions_flatten]
    rfl
  · exact fun b hb => mem_contributions_length_le env _ req.sources 0 b hb
  · rw [handleScrape_stream env req hk]
    exact completeJobsOf_stream req.sources _

/-- Witness for C6 at a concrete request with an absent maxResults field,
exercising the default of 20. -/
theorem C6_budget_even_split_witness :
    ∃ blocks : List (List Job),
      blocks.length = reqDefault.sources.length ∧
      mergedJobs envTwo reqDefault = blocks.flatten ∧
      (∀ b ∈ blocks, b.length ≤
        resultsPerSource (reqDefault.maxResults.getD 20) reqDefault.sources.length) ∧
      completeJobsOf (handleScrape envTwo reqDefault) =
        some (enrichJobs envTwo (mergedJobs envTwo reqDefault)) ∧
      reqDefault.maxResults.getD 20 ≤ reqDefault.sources.length *
        resultsPerSource (reqDefault.maxResults.getD 20) reqDefault.sources.length ∧
      reqDefault.sources.length *
        resultsPerSource (reqDefault.maxResults.getD 20) reqDefault.sources.length <
        reqDefault.maxResults.getD 20 + reqDefault.sources.length :=
  C6_budget_even_split envTwo reqDefault rfl (by decide) (by decide)

/-! The email selection of findHREmail, and the page-session failure mode of
the two enrichment helpers. -/

theorem selectEmail_eq_find (emails : List String) :
    selectEmail emails =
      match emails.find? roleTest with
      | some e => some e
      | none => emails.head? := by
  cases emails with
  | nil => rfl
  | cons e0 rest =>
    show (match (e0 :: rest).find? roleTest with
          | some hrE => some (if hrE == "" then e0 else hrE)
          | none => some e0) = _
    cases hf : (e0 :: rest).find? roleTest with
    | none => rfl
    | some e =>
      have hrole : roleTest e = true := List.find?_some hf
      have hne : (e == "") = false := by
        by_cases he : e = ""
        · subst he
          have : roleTest "" = false := by decide
          rw [this] at hrole
          cases hrole
        · simp [he]
      simp [hne]

/-- Claim C7 is false as stated: a page-session creation failure
(`getBrowser()`/`browser.newPage()` throwing) occurs before the `try` block
of either helper, so the exception propagates to the caller instead of
degrading to null. -/
theorem C7_counterexample :
    findCareerPage badPageEnv (some "http://example.com") = Except.error () ∧
    findHREmail (some "http://example.com/about") badPageEnv
      ["hr@example.com"] = Except.error () :=
  ⟨rfl, rfl⟩

/-- Claim C7 amended: once the page session has been created and its close
succeeds, neither helper ever raises: each returns a value, degrading to
null on a navigation or evaluation failure; and a null URL short-circuits
findHREmail before any session work.  A failure creating (or closing) the
page session, however, propagates, as the counterexample shows. -/
theorem C7_amended_no_raise_in_try (env : PageEnv) (fr : Option String)
    (url : String) (emails : List String)
    (hn : env.newPageOk = true) (hc : env.closeOk = true) :
    (∃ v, findCareerPage env fr = Except.ok v) ∧
    (∃ v, findHREmail (some url) env emails = Except.ok v) ∧
    (env.gotoOk = false →
      findCareerPage env fr = Except.ok none ∧
      findHREmail (some url) env emails = Except.ok none) ∧
    (∀ env2 emails2, findHREmail none env2 emails2 = Except.ok none) := by
  refine ⟨?_, ?_, ?_, fun env2 emails2 => rfl⟩
  · have h1 : findCareerPage env fr =
        Except.ok (if env.gotoOk && env.evalOk then fr else none) := by
      unfold findCareerPage
      rw [if_pos hn, if_pos hc]
    exact ⟨_, h1⟩
  · by_cases hu : url == ""
    · refine ⟨none, ?_⟩
      unfold findHREmail
      rw [if_pos (by simp [jsTruthyStr, hu])]
    · have h1 : findHREmail (some url) env emails =
          Except.ok (if env.gotoOk && env.evalOk then selectEmail emails
            else none) := by
        unfold findHREmail
        rw [if_neg (by simp [jsTruthyStr, hu]), if_pos hn, if_pos hc]
      exact ⟨_, h1⟩
  · intro hg
    constructor
    · unfold findCareerPage
      rw [if_pos hn, if_pos hc, hg]
      rfl
    · by_cases hu : url == ""
      · unfold findHREmail
        rw [if_pos (by simp [jsTruthyStr, hu])]
      · unfold findHREmail
        rw [if_neg (by simp [jsTruthyStr, hu]), if_pos hn, if_pos hc, hg]
        rfl

/-- Witness for C7 amended at a successful page environment. -/
theorem C7_amended_no_raise_in_try_witness :
    (∃ v, findCareerPage goodPageEnv (some "http://example.com") =
      Except.ok v) ∧
    (∃ v, findHREmail (some "http://example.com/about") goodPageEnv
      ["info@example.com"] = Except.ok v) ∧
    (goodPageEnv.gotoOk = false →
      findCareerPage goodPageEnv (some "http://example.com") =
        Except.ok none ∧
      findHREmail (some "http://example.com/about") goodPageEnv
        ["info@example.com"] = Except.ok none) ∧
    (∀ env2 emails2, findHREmail none env2 emails2 = Except.ok none) :=
  C7_amended_no_raise_in_try goodPageEnv (some "http://example.com")
    "http://example.com/about" ["info@example.com"] rfl rfl

/-- Claim C8: over the extracted email-like substrings of the page text,
findHREmail returns the first one matching a role-indicative pattern
(hr, careers, recruitment, jobs, talent, case-insensitive anywhere in the
address), else the first extracted email, else null when none was
extracted; and a null input URL yields null immediately, whatever the page
environment, hence without any navigation. -/
theorem C8_email_selection (env : PageEnv) (url : String)
    (emails : List String)
    (hn : env.newPageOk = true) (hg : env.gotoOk = true)
    (hev : env.evalOk = true) (hc : env.closeOk = true) (hu : url ≠ "") :
    findHREmail (some url) env emails =
      Except.ok (match emails.find? roleTest with
        | some e => some e
        | none => emails.head?) ∧
    (∀ env2 emails2, findHREmail none env2 emails2 = Except.ok none) := by
  refine ⟨?_, fun env2 emails2 => rfl⟩
  unfold findHREmail
  rw [if_neg (by simp [jsTruthyStr, hu]), if_pos hn, if_pos hc, hg, hev]
  rw [selectEmail_eq_find]
  rfl

/-- Witness for C8: the first role-indicative address wins over an earlier
plain address. -/
theorem C8_email_selection_witness :
    findHREmail (some "http://example.com/about") goodPageEnv
      ["info@example.com", "a@Careers.io", "hr@example.com"] =
      Except.ok (match ["info@example.com", "a@Careers.io",
          "hr@example.com"].find? roleTest with
        | some e => some e
        | none => ["info@example.com", "a@Careers.io",
            "hr@example.com"].head?) ∧
    (∀ env2 emails2, findHREmail none env2 emails2 = Except.ok none) :=
  C8_email_selection goodPageEnv "http://example.com/about"
    ["info@example.com", "a@Careers.io", "hr@example.com"]
    rfl rfl rfl rfl (by decide)

/-- Claim C9: when the extracted raw records carry no hrEmail field (as the
extractors build them), every job in the complete frame that carries an
hrEmail field also carries a careerPageUrl field holding a non-null,
nonempty URL: the email lookup runs only under the truthiness test of the
just-assigned careerPageUrl. -/
theorem C9_hrEmail_needs_career (env : Env) (req : Request)
    (hk : jsTruthyStr req.keywords = true)
    (hx : ∀ i js, env.extract i = Except.ok js → ∀ j ∈ js, j.hrEmail = none) :
    ∀ jobs, completeJobsOf (handleScrape env req) = some jobs →
      ∀ j ∈ jobs, j.hrEmail ≠ none →
        ∃ u, j.careerPageUrl = some (some u) ∧ u ≠ "" := by
  intro jobs hjobs j hmem hne
  rw [handleScrape_stream env req hk, completeJobsOf_stream] at hjobs
  injection hjobs with hjobs
  subst hjobs
  have hall : ∀ x ∈ mergedJobs env req, x.hrEmail = none := by
    intro x hxm
    obtain ⟨k, js, hok, hmemjs⟩ := mem_scrapeFrom_snd env _ req.sources 0 x hxm
    exact hx k js hok x hmemjs
  exact enrichFrom_hrEmail_inv env _ (mergedJobs env req) 0 hall j hmem hne

/-- Witness for C9 at an environment whose enrichment lookups succeed: the
enriched record carries both fields and its careerPageUrl is a nonempty
URL. -/
theorem C9_hrEmail_needs_career_witness :
    ∃ u, jobE.careerPageUrl = some (some u) ∧ u ≠ "" :=
  C9_hrEmail_needs_career envEnrich reqLN rfl
    (fun i js h => by
      injection h with h2
      subst h2
      intro j hj
      rw [List.mem_singleton] at hj
      subst hj
      rfl)
    [jobE, jobE] (by decide) jobE (by decide) (by decide)

end JobBackend
